import Mathlib

/-!
Verification of the layout-analysis core of the Ultudy backend
(`backend/src/ingestion/layout_analyzer.py`).

The Python module is shallowly embedded: every Python function of the
`LayoutAnalyzer` class that the claims touch is translated to an
executable Lean definition over the same data.  Machine floats are
modelled exactly: coordinates as rationals, font sizes as an extended
rational type `FS` that also carries the IEEE special values
(`nan`, `inf`, `-inf`) with IEEE comparison and division semantics,
because `_detect_headings` filters sizes with `> 0` and divides them.
Python's stable `list.sort` is modelled by insertion sort, Python dicts
(used only with insertion-ordered keys) by association lists.
-/

namespace Ultudy

/-- Embedding of the `LayoutType` enum from `layout_analyzer.py`. -/
inductive LayoutType where
  | SINGLE_COLUMN
  | TWO_COLUMN
  | THREE_COLUMN
  | MIXED
deriving DecidableEq

/-- Embedding of the `HeadingLevel` enum from `layout_analyzer.py`. -/
inductive HeadingLevel where
  | H1
  | H2
  | H3
  | BODY
deriving DecidableEq

/-- The integer `.value` of the `HeadingLevel` enum (H1=1, H2=2, H3=3, BODY=0). -/
def HeadingLevel.toValue : HeadingLevel → Nat
  | .H1 => 1
  | .H2 => 2
  | .H3 => 3
  | .BODY => 0

/-- A Python float as observed by this module: a finite rational or one of
the IEEE special values.  `font_size` needs the special values because the
code compares sizes with `> 0` and divides by the median. -/
inductive FS where
  | finite : ℚ → FS
  | inf : FS
  | ninf : FS
  | nan : FS
deriving DecidableEq

/-- IEEE `<` on floats: any comparison involving NaN is false. -/
def fsLt : FS → FS → Bool
  | .nan, _ => false
  | _, .nan => false
  | .finite p, .finite q => p < q
  | .finite _, .inf => true
  | .finite _, .ninf => false
  | .inf, _ => false
  | .ninf, .ninf => false
  | .ninf, _ => true

/-- IEEE `<=` on floats: any comparison involving NaN is false. -/
def fsLe : FS → FS → Bool
  | .nan, _ => false
  | _, .nan => false
  | .finite p, .finite q => p ≤ q
  | .finite _, .inf => true
  | .finite _, .ninf => false
  | .inf, .inf => true
  | .inf, _ => false
  | .ninf, _ => true

/-- IEEE division on floats (the sign of zero is irrelevant to this code,
so both zeros are the rational 0). -/
def fsDiv : FS → FS → FS
  | .nan, _ => .nan
  | _, .nan => .nan
  | .inf, .inf => .nan
  | .inf, .ninf => .nan
  | .ninf, .inf => .nan
  | .ninf, .ninf => .nan
  | .inf, .finite q => if q < 0 then .ninf else .inf
  | .ninf, .finite q => if q < 0 then .inf else .ninf
  | .finite _, .inf => .finite 0
  | .finite _, .ninf => .finite 0
  | .finite p, .finite q =>
      if q = 0 then (if p = 0 then .nan else if 0 < p then .inf else .ninf)
      else .finite (p / q)

/-- Embedding of the `TextBlock` dataclass from `layout_analyzer.py`; the bbox tuple
`(x0, y0, x1, y1)` is flattened into four fields. -/
structure Block where
  text : String
  page : Nat
  x0 : ℚ
  y0 : ℚ
  x1 : ℚ
  y1 : ℚ
  font_size : FS
  font_name : String
  font_weight : String
  is_heading : Bool
  heading_level : HeadingLevel
  column : Int
  reading_order : Int
deriving DecidableEq

/-! ### Column detection (`_cluster_coordinates`, `_detect_columns`) -/

/-- Loop body of `_cluster_coordinates`: `cur` is the (always nonempty)
`current_cluster`; `cur.getLastD 0` is Python's `current_cluster[-1]`. -/
def clusterAux (threshold : ℚ) (cur : List ℚ) : List ℚ → List (List ℚ)
  | [] => [cur]
  | c :: cs =>
      if c - cur.getLastD 0 ≤ threshold then clusterAux threshold (cur ++ [c]) cs
      else cur :: clusterAux threshold [c] cs

/-- Embedding of `LayoutAnalyzer._cluster_coordinates(coords, threshold)`. -/
def clusterCoordinates (coords : List ℚ) (threshold : ℚ) : List (List ℚ) :=
  match coords with
  | [] => []
  | c :: cs => clusterAux threshold [c] cs

/-- Python's `min` over a (nonempty) list of floats. -/
def minQ : List ℚ → ℚ
  | [] => 0
  | x :: xs => xs.foldl min x

/-- The `for i, cluster in enumerate(clusters)` loop of `_detect_columns`:
for cluster `i` the left bound is `min(cluster)`, the right bound is
`min(clusters[i+1]) - COLUMN_GAP_THRESHOLD/2` when a next cluster exists and
the page width otherwise; a band narrower than `MIN_COLUMN_WIDTH = 100`
is dropped. -/
def buildColumns (pageWidth : ℚ) : List (List ℚ) → List (ℚ × ℚ)
  | [] => []
  | [c] =>
      let xLeft := minQ c
      if pageWidth - xLeft ≥ 100 then [(xLeft, pageWidth)] else []
  | c :: c2 :: rest =>
      let xLeft := minQ c
      let xRight := minQ c2 - 30 / 2
      (if xRight - xLeft ≥ 100 then [(xLeft, xRight)] else []) ++
        buildColumns pageWidth (c2 :: rest)

/-- Python's stable ascending sort of the block left edges
(`sorted([b.bbox[0] for b in blocks])`). -/
def sortedXCoords (blocks : List Block) : List ℚ :=
  List.insertionSort (· ≤ ·) (blocks.map Block.x0)

/-- The cluster list `_detect_columns` computes
(`self._cluster_coordinates(x_coords, self.COLUMN_GAP_THRESHOLD)` with the
default gap threshold 30). -/
def clustersOf (blocks : List Block) : List (List ℚ) :=
  clusterCoordinates (sortedXCoords blocks) 30

/-- Embedding of `LayoutAnalyzer._detect_columns(blocks, page)`; the page rectangle is
reduced to its width, the only part the function reads. -/
def detectColumns (blocks : List Block) (pageWidth : ℚ) :
    LayoutType × Option (List (ℚ × ℚ)) :=
  if blocks.isEmpty then (LayoutType.SINGLE_COLUMN, none)
  else
    let clusters := clustersOf blocks
    if clusters.length ≤ 1 then (LayoutType.SINGLE_COLUMN, none)
    else
      let columns := buildColumns pageWidth clusters
      let layout :=
        if columns.length = 1 then LayoutType.SINGLE_COLUMN
        else if columns.length = 2 then LayoutType.TWO_COLUMN
        else if columns.length = 3 then LayoutType.THREE_COLUMN
        else LayoutType.MIXED
      (layout, if columns.length > 1 then some columns else none)

/-! ### Reading order (`_determine_reading_order`) -/

/-- Python's stable `group.sort(key=lambda b: b.bbox[1])` (sort by top `y0`). -/
def sortByY (g : List Block) : List Block :=
  List.insertionSort (fun a b => a.y0 ≤ b.y0) g

/-- Appending a block to its `(page, column)` entry of the
`page_column_groups` dict; a fresh key goes to the end, matching Python's
insertion-ordered dict. -/
def groupInsert (key : Nat × Int) (b : Block) :
    List ((Nat × Int) × List Block) → List ((Nat × Int) × List Block)
  | [] => [(key, [b])]
  | (k, g) :: rest =>
      if k = key then (k, g ++ [b]) :: rest
      else (k, g) :: groupInsert key b rest

/-- The `page_column_groups` dict of `_determine_reading_order`, after each
group has been sorted top-to-bottom. -/
def pageColumnGroups (blocks : List Block) : List ((Nat × Int) × List Block) :=
  (blocks.foldl (fun acc b => groupInsert (b.page, b.column) b acc) []).map
    (fun kg => (kg.1, sortByY kg.2))

/-- Python's `sorted(set(...))`: drop duplicates, then sort ascending. -/
def sortedDedupNat (l : List Nat) : List Nat :=
  List.insertionSort (· ≤ ·) l.dedup

/-- Python's `sorted(set(...))` for column indices. -/
def sortedDedupInt (l : List Int) : List Int :=
  List.insertionSort (· ≤ ·) l.dedup

/-- The page-by-page, column-by-column concatenation of the groups that
`_determine_reading_order` walks (`for page in pages: for col in columns:`).
A key built from a block of the page is always present in the dict, so the
`if key in page_column_groups` guard is modelled by `getD ... []`. -/
def orderedGroupList (blocks : List Block) : List Block :=
  let groups := pageColumnGroups blocks
  let pages := sortedDedupNat (blocks.map Block.page)
  (pages.flatMap fun p =>
    (sortedDedupInt ((blocks.filter (fun b => b.page = p)).map Block.column)).map
      (fun c => (p, c))).flatMap
    fun k => ((groups.find? (fun kg => kg.1 = k)).map Prod.snd).getD []

/-- The `order_counter` loop: each emitted block receives the running
counter as its `reading_order`. -/
def assignLoop (counter : Nat) : List Block → List Block
  | [] => []
  | b :: bs => { b with reading_order := Int.ofNat counter } :: assignLoop (counter + 1) bs

/-- Embedding of `LayoutAnalyzer._determine_reading_order(blocks)`. -/
def determineReadingOrder (blocks : List Block) : List Block :=
  assignLoop 0 (orderedGroupList blocks)

/-! ### Heading detection (`_detect_headings`) -/

/-- The filtered size list `[b.font_size for b in blocks if b.font_size > 0]`.
Under IEEE comparison, NaN and negative or `-inf` sizes fail `> 0` while
`+inf` passes it. -/
def fontSizes (blocks : List Block) : List FS :=
  (blocks.filter fun b => fsLt (FS.finite 0) b.font_size).map Block.font_size

/-- Insertion step of the stable ascending sort of `font_sizes`. -/
def fsInsert (a : FS) : List FS → List FS
  | [] => [a]
  | b :: l => if fsLe a b then a :: b :: l else b :: fsInsert a l

/-- Python's `font_sizes.sort()`; on the NaN-free lists this code sorts,
insertion sort by IEEE `<=` agrees with Python's stable sort. -/
def fsSort : List FS → List FS
  | [] => []
  | a :: l => fsInsert a (fsSort l)

/-- The median `font_sizes[len(font_sizes) // 2]` after sorting, or `none` when the
filtered list is empty (which also covers `blocks == []`). -/
def medianFontSize (blocks : List Block) : Option FS :=
  let fs := fontSizes blocks
  if fs.isEmpty then none
  else some ((fsSort fs).getD (fs.length / 2) (FS.finite 0))

/-- The ratio `block.font_size / median_size if median_size > 0 else 1.0`. -/
def sizeQuot (m : FS) (b : Block) : FS :=
  if fsLt (FS.finite 0) m then fsDiv b.font_size m else FS.finite 1

/-- The heading criterion: `size_ratio >= 1.2 and font_size >= 12`, or else
`font_weight == "bold" and size_ratio >= 1.1`. -/
def headingFlag (m : FS) (b : Block) : Bool :=
  (fsLe (FS.finite 1.2) (sizeQuot m b) && fsLe (FS.finite 12) b.font_size) ||
    (b.font_weight == "bold" && fsLe (FS.finite 1.1) (sizeQuot m b))

/-- The level rule applied to a qualifying block:
ratio `>= 1.5` gives H1, `>= 1.3` gives H2, anything else H3. -/
def levelFor (q : FS) : HeadingLevel :=
  if fsLe (FS.finite 1.5) q then HeadingLevel.H1
  else if fsLe (FS.finite 1.3) q then HeadingLevel.H2
  else HeadingLevel.H3

/-- The in-place mutation `_detect_headings` performs on one block:
a qualifying block gets `is_heading = True` and its level; any other block
is left untouched. -/
def updateBlock (m : FS) (b : Block) : Block :=
  if headingFlag m b then
    { b with is_heading := true, heading_level := levelFor (sizeQuot m b) }
  else b

/-- The `headings` list `_detect_headings` returns: the qualifying blocks,
in block order, after their flags were set. -/
def detectHeadings (blocks : List Block) : List Block :=
  match medianFontSize blocks with
  | none => []
  | some m =>
      blocks.filterMap fun b =>
        if headingFlag m b then some (updateBlock m b) else none

/-- The block list as it stands after `_detect_headings` ran over it
(the function mutates qualifying blocks in place and removes none). -/
def classifiedBlocks (blocks : List Block) : List Block :=
  match medianFontSize blocks with
  | none => blocks
  | some m => blocks.map (updateBlock m)

/-! ### Document-level aggregation (`_determine_overall_layout`) -/

/-- The update `layout_counts[layout] = layout_counts.get(layout, 0) + 1` on an
insertion-ordered dict rendered as an association list. -/
def bumpCount (acc : List (LayoutType × Nat)) (k : LayoutType) :
    List (LayoutType × Nat) :=
  match acc with
  | [] => [(k, 1)]
  | (k0, n) :: rest =>
      if k0 = k then (k0, n + 1) :: rest else (k0, n) :: bumpCount rest k

/-- The `layout_counts` dict built over the per-page layout types. -/
def layoutCounts (ls : List LayoutType) : List (LayoutType × Nat) :=
  ls.foldl bumpCount []

/-- Python's `max(items, key=lambda x: x[1])[0]`: the first key whose count
is maximal (later entries win only with a strictly greater count). -/
def mostCommonLayout (counts : List (LayoutType × Nat)) : LayoutType :=
  match counts with
  | [] => LayoutType.SINGLE_COLUMN
  | c :: cs => (cs.foldl (fun best x => if x.2 > best.2 then x else best) c).1

/-- Embedding of `LayoutAnalyzer._determine_overall_layout(pages_analysis)`, reduced to
the per-page layout values it reads. -/
def determineOverallLayout (ls : List LayoutType) : LayoutType :=
  if ls.isEmpty then LayoutType.SINGLE_COLUMN
  else
    let counts := layoutCounts ls
    if counts.length = 1 then mostCommonLayout counts
    else LayoutType.MIXED

/-! ### Structure building (`_build_document_structure`)

The Python code keeps `current_h1`/`current_h2` as aliases into the dict
tree it is growing and appends through them.  Every append happens at the
rightmost open node: an H1 is appended last to `sections` and stays last
while it is current (later top-level appends only come from a new H1,
which re-points `current_h1`); an H2 is appended last to its parent list
and stays last while current (later appends to that list only come from a
new H2).  The state below renders exactly that: the already-closed prefix
of the top level plus the still-open rightmost spine. -/

/-- A node of the structure dict: H1/H2 nodes carry a `subsections` key
(`branch`), H3 nodes are built without one (`leaf`). -/
inductive Node where
  | branch : String → Nat → Nat → List Node → Node
  | leaf : String → Nat → Nat → Node

/-- The still-open H2 dict: its closed children so far. -/
structure OpenH2 where
  title : String
  page : Nat
  subs : List Node

/-- The still-open H1 dict: its closed children plus an optional open H2. -/
structure OpenH1 where
  title : String
  page : Nat
  subs : List Node
  openH2 : Option OpenH2

/-- The `current_h1`/`current_h2` pointers: nothing open, an open H1
(possibly holding the open H2), or an open top-level H2 (the case where
`current_h2` is set while `current_h1` is `None`). -/
inductive Cur where
  | nothing
  | h1 : OpenH1 → Cur
  | h2top : OpenH2 → Cur

/-- Fold state: the closed top-level prefix of `structure['sections']`
plus the open rightmost spine. -/
structure BuildSt where
  closed : List Node
  cur : Cur

/-- Closing an open H2 into its dict `{title, level: 2, page, subsections}`. -/
def closeH2 (o : OpenH2) : Node :=
  Node.branch o.title 2 o.page o.subs

/-- Closing an open H1 into its dict `{title, level: 1, page, subsections}`. -/
def closeH1 (o : OpenH1) : Node :=
  Node.branch o.title 1 o.page (o.subs ++ (o.openH2.map closeH2).toList)

/-- The full `structure['sections']` list a state denotes. -/
def flushSt (s : BuildSt) : List Node :=
  s.closed ++
    match s.cur with
    | Cur.nothing => []
    | Cur.h1 o => [closeH1 o]
    | Cur.h2top o => [closeH2 o]

/-- One iteration of the `for heading in headings:` loop of
`_build_document_structure`.  H1: new top-level dict becomes `current_h1`,
`current_h2` is reset.  H2: appended under `current_h1` when set, else to
the top level; becomes `current_h2`.  H3: `{title, level: 3, page}` (no
`subsections` key) appended under `current_h2`, else `current_h1`, else the
top level.  A BODY block matches no branch and is ignored. -/
def buildStep (s : BuildSt) (h : Block) : BuildSt :=
  match h.heading_level with
  | HeadingLevel.H1 =>
      { closed := flushSt s, cur := Cur.h1 ⟨h.text, h.page, [], none⟩ }
  | HeadingLevel.H2 =>
      match s.cur with
      | Cur.h1 o =>
          { closed := s.closed,
            cur := Cur.h1 ⟨o.title, o.page,
              o.subs ++ (o.openH2.map closeH2).toList,
              some ⟨h.text, h.page, []⟩⟩ }
      | Cur.h2top o =>
          { closed := s.closed ++ [closeH2 o], cur := Cur.h2top ⟨h.text, h.page, []⟩ }
      | Cur.nothing =>
          { closed := s.closed, cur := Cur.h2top ⟨h.text, h.page, []⟩ }
  | HeadingLevel.H3 =>
      match s.cur with
      | Cur.h1 o =>
          match o.openH2 with
          | some o2 =>
              { closed := s.closed,
                cur := Cur.h1 ⟨o.title, o.page, o.subs,
                  some ⟨o2.title, o2.page, o2.subs ++ [Node.leaf h.text 3 h.page]⟩⟩ }
          | none =>
              { closed := s.closed,
                cur := Cur.h1 ⟨o.title, o.page,
                  o.subs ++ [Node.leaf h.text 3 h.page], none⟩ }
      | Cur.h2top o2 =>
          { closed := s.closed,
            cur := Cur.h2top ⟨o2.title, o2.page, o2.subs ++ [Node.leaf h.text 3 h.page]⟩ }
      | Cur.nothing =>
          { closed := s.closed ++ [Node.leaf h.text 3 h.page], cur := Cur.nothing }
  | HeadingLevel.BODY => s

/-- Embedding of `LayoutAnalyzer._build_document_structure(headings, all_blocks)`
(the `all_blocks` argument is unused by the code); returns
`structure['sections']`. -/
def buildDocumentStructure (headings : List Block) : List Node :=
  flushSt (headings.foldl buildStep ⟨[], Cur.nothing⟩)

mutual

/-- Depth-first pre-order traversal of one node, listing
`(title, level, page)` triples. -/
def preorderN : Node → List (String × Nat × Nat)
  | Node.leaf t l p => [(t, l, p)]
  | Node.branch t l p subs => (t, l, p) :: preorderL subs

/-- Depth-first pre-order traversal of a forest. -/
def preorderL : List Node → List (String × Nat × Nat)
  | [] => []
  | n :: ns => preorderN n ++ preorderL ns

end

/-- Does a structure-dict node carry a `subsections` key? -/
def nodeHasSubsections : Node → Bool
  | Node.branch _ _ _ _ => true
  | Node.leaf _ _ _ => false

/-- The shape `_build_document_structure` actually produces: nodes with a
`subsections` key are exactly the level-1/level-2 nodes, H3 nodes are bare
`{title, level, page}` dicts. -/
def nodeShapeOk : Node → Bool
  | Node.branch _ l _ _ => l = 1 || l = 2
  | Node.leaf _ l _ => l = 3

mutual

/-- Predicate `p` holds on a node and, recursively, on all nodes below it. -/
def allNodesN (p : Node → Bool) : Node → Bool
  | Node.leaf t l pg => p (Node.leaf t l pg)
  | Node.branch t l pg subs => p (Node.branch t l pg subs) && allNodesL p subs

/-- Predicate `p` holds on every node of a forest. -/
def allNodesL (p : Node → Bool) : List Node → Bool
  | [] => true
  | n :: ns => allNodesN p n && allNodesL p ns

end

/-! ### Concrete instances used by counterexamples and witnesses -/

/-- A plain body block; the concrete instances below vary single fields. -/
def baseBlock : Block :=
  { text := "body", page := 1, x0 := 0, y0 := 0, x1 := 10, y1 := 10,
    font_size := FS.finite 12, font_name := "Arial", font_weight := "normal",
    is_heading := false, heading_level := HeadingLevel.BODY, column := 0,
    reading_order := -1 }

/-- An H3 heading block for the structure-builder instances. -/
def h3Block : Block :=
  { baseBlock with
    text := "Intro", is_heading := true, heading_level := HeadingLevel.H3 }

/-! ### Helper lemmas -/

theorem assignLoop_map_reading_order :
    ∀ (l : List Block) (c : Nat),
      (assignLoop c l).map Block.reading_order = (List.range' c l.length).map Int.ofNat := by
  intro l
  induction l with
  | nil => intro c; simp [assignLoop]
  | cons b bs ih => intro c; simp [assignLoop, List.range', ih]

theorem allNodesL_append (p : Node → Bool) (a b : List Node) :
    allNodesL p (a ++ b) = (allNodesL p a && allNodesL p b) := by
  induction a with
  | nil => simp [allNodesL]
  | cons n ns ih => simp [allNodesL, ih, Bool.and_assoc]

/-! ### C1: reading order counter -/

/--
C1 (corrected): `_determine_reading_order` keeps one global `order_counter`.
Over the whole returned list the `reading_order` values are `0, 1, 2, …` in
output order: the counter starts at 0 and increases strictly with no reset
between pages, so values are unique and strictly increasing within every
page, but only the first nonempty page can start at 0.
-/
theorem readingOrder_global_counter (blocks : List Block) :
    (determineReadingOrder blocks).map Block.reading_order =
      (List.range (determineReadingOrder blocks).length).map Int.ofNat := by
  have hlen : ∀ (l : List Block) (c : Nat), (assignLoop c l).length = l.length := by
    intro l
    induction l with
    | nil => intro c; simp [assignLoop]
    | cons b bs ih => intro c; simp [assignLoop, ih]
  rw [determineReadingOrder, List.range_eq_range', assignLoop_map_reading_order, hlen]

/--
C1 counterexample: two blocks on pages 1 and 2 (both in column 0).
The block on page 2 receives `reading_order = 1`, not 0: the counter does
not restart on a new page, so the lowest `reading_order` on page 2 is not 0.
-/
theorem readingOrder_no_page_restart :
    (determineReadingOrder [baseBlock, { baseBlock with page := 2 }]).map
        (fun b => (b.page, b.reading_order)) = [(1, 0), (2, 1)] ∧
      (1 : Int) ≠ 0 := by
  refine ⟨by decide, by decide⟩

/-! ### C4: node shape of the structure tree -/

/-- Shape of the possibly-open H2 slot. -/
def openH2ShapeOk : Option OpenH2 → Bool
  | none => true
  | some o2 => allNodesL nodeShapeOk o2.subs

/-- Shape invariant of the fold state: every already-built node anywhere in
the state satisfies `nodeShapeOk`. -/
def curShapeOk : Cur → Bool
  | Cur.nothing => true
  | Cur.h1 o => allNodesL nodeShapeOk o.subs && openH2ShapeOk o.openH2
  | Cur.h2top o2 => allNodesL nodeShapeOk o2.subs

theorem closeH2_shapeOk (o : OpenH2) (h : allNodesL nodeShapeOk o.subs = true) :
    allNodesN nodeShapeOk (closeH2 o) = true := by
  simp [closeH2, allNodesN, nodeShapeOk, h]

theorem closeH1_shapeOk (o : OpenH1)
    (h : allNodesL nodeShapeOk o.subs = true)
    (h2 : openH2ShapeOk o.openH2 = true) :
    allNodesN nodeShapeOk (closeH1 o) = true := by
  rcases o with ⟨t, p, subs, o2⟩
  cases o2 with
  | none => simp_all [closeH1, allNodesN, nodeShapeOk, allNodesL_append, allNodesL]
  | some o2 =>
      simp only [openH2ShapeOk] at h2
      simp_all [closeH1, closeH2, allNodesN, nodeShapeOk, allNodesL_append, allNodesL]

theorem flushSt_shapeOk (s : BuildSt)
    (hc : allNodesL nodeShapeOk s.closed = true) (hcur : curShapeOk s.cur = true) :
    allNodesL nodeShapeOk (flushSt s) = true := by
  rcases s with ⟨closed, cur⟩
  cases cur with
  | nothing => simpa [flushSt] using hc
  | h1 o =>
      simp only [curShapeOk, Bool.and_eq_true] at hcur
      simp [flushSt, allNodesL_append, hc, allNodesL, closeH1_shapeOk o hcur.1 hcur.2]
  | h2top o2 =>
      simp only [curShapeOk] at hcur
      simp [flushSt, allNodesL_append, hc, allNodesL, closeH2_shapeOk o2 hcur]

theorem buildStep_shapeOk (s : BuildSt) (h : Block)
    (hc : allNodesL nodeShapeOk s.closed = true) (hcur : curShapeOk s.cur = true) :
    allNodesL nodeShapeOk (buildStep s h).closed = true ∧
      curShapeOk (buildStep s h).cur = true := by
  rcases s with ⟨closed, cur⟩
  cases hl : h.heading_level with
  | H1 =>
      refine ⟨?_, by simp [buildStep, hl, curShapeOk, openH2ShapeOk, allNodesL]⟩
      simpa [buildStep, hl] using flushSt_shapeOk ⟨closed, cur⟩ hc hcur
  | H2 =>
      cases cur with
      | nothing =>
          exact ⟨by simpa [buildStep, hl] using hc,
            by simp [buildStep, hl, curShapeOk, allNodesL]⟩
      | h1 o =>
          simp only [curShapeOk, Bool.and_eq_true] at hcur
          rcases o with ⟨t, p, subs, o2⟩
          simp only at hcur
          cases o2 with
          | none =>
              exact ⟨by simpa [buildStep, hl] using hc,
                by simp [buildStep, hl, curShapeOk, openH2ShapeOk, allNodesL_append,
                  allNodesL, hcur.1]⟩
          | some o2 =>
              refine ⟨by simpa [buildStep, hl] using hc, ?_⟩
              have h2ok := closeH2_shapeOk o2 (by simpa [openH2ShapeOk] using hcur.2)
              simp [buildStep, hl, curShapeOk, openH2ShapeOk, allNodesL_append,
                allNodesL, hcur.1, h2ok]
      | h2top o2 =>
          simp only [curShapeOk] at hcur
          refine ⟨?_, by simp [buildStep, hl, curShapeOk, allNodesL]⟩
          simp [buildStep, hl, allNodesL_append, hc, allNodesL, closeH2_shapeOk o2 hcur]
  | H3 =>
      cases cur with
      | nothing =>
          refine ⟨?_, by simp [buildStep, hl, curShapeOk]⟩
          simp [buildStep, hl, allNodesL_append, hc, allNodesL, allNodesN, nodeShapeOk]
      | h1 o =>
          simp only [curShapeOk, Bool.and_eq_true] at hcur
          rcases o with ⟨t, p, subs, o2⟩
          simp only at hcur
          cases o2 with
          | none =>
              exact ⟨by simpa [buildStep, hl] using hc,
                by simp [buildStep, hl, curShapeOk, openH2ShapeOk, allNodesL_append,
                  allNodesL, allNodesN, nodeShapeOk, hcur.1]⟩
          | some o2 =>
              refine ⟨by simpa [buildStep, hl] using hc, ?_⟩
              have h2ok : allNodesL nodeShapeOk o2.subs = true := by
                simpa [openH2ShapeOk] using hcur.2
              simp [buildStep, hl, curShapeOk, openH2ShapeOk, allNodesL_append,
                allNodesL, allNodesN, nodeShapeOk, hcur.1, h2ok]
      | h2top o2 =>
          simp only [curShapeOk] at hcur
          refine ⟨by simpa [buildStep, hl] using hc, ?_⟩
          simp [buildStep, hl, curShapeOk, allNodesL_append, hcur, allNodesL,
            allNodesN, nodeShapeOk]
  | BODY =>
      exact ⟨by simpa [buildStep, hl] using hc, by simpa [buildStep, hl] using hcur⟩

/--
C4 (corrected): every node of the structure tree built by
`_build_document_structure` has `{title, level, page}`, but only H1 and H2
nodes (level 1 and 2) carry the `subsections` key; H3 nodes are built as
bare `{title, level: 3, page}` dicts with no `subsections` key.
-/
theorem structureTree_node_shapes (hs : List Block) :
    allNodesL nodeShapeOk (buildDocumentStructure hs) = true := by
  suffices h : ∀ (l : List Block) (s : BuildSt),
      allNodesL nodeShapeOk s.closed = true → curShapeOk s.cur = true →
      allNodesL nodeShapeOk (l.foldl buildStep s).closed = true ∧
        curShapeOk (l.foldl buildStep s).cur = true by
    have h0 := h hs ⟨[], Cur.nothing⟩ (by simp [allNodesL]) (by simp [curShapeOk])
    exact flushSt_shapeOk _ h0.1 h0.2
  intro l
  induction l with
  | nil => intro s hc hcur; exact ⟨hc, hcur⟩
  | cons b bs ih =>
      intro s hc hcur
      have hstep := buildStep_shapeOk s b hc hcur
      exact ih (buildStep s b) hstep.1 hstep.2

/--
C4 counterexample: a single H3 heading produces a one-node tree whose
node is `Node.leaf "Intro" 3 1`, carrying no `subsections` key, so the
"every node has a `subsections` list" claim fails.
-/
theorem structureTree_h3_no_subsections :
    allNodesL nodeHasSubsections (buildDocumentStructure [h3Block]) = false := by
  decide

/-! ### C9: document-level layout aggregation -/

theorem bumpCount_keys_mono (j : LayoutType) :
    ∀ (acc : List (LayoutType × Nat)) (k : LayoutType),
      k ∈ acc.map Prod.fst → k ∈ (bumpCount acc j).map Prod.fst := by
  intro acc
  induction acc with
  | nil => intro k hk; simp at hk
  | cons p rest ih =>
      intro k hk
      rcases p with ⟨k0, n⟩
      by_cases hk0 : k0 = j
      · simpa [bumpCount, hk0] using hk
      · simp only [List.map_cons, List.mem_cons] at hk
        rcases hk with hk | hk
        · simp [bumpCount, hk0, hk]
        · simp [bumpCount, hk0, ih k hk]

theorem bumpCount_key_self (acc : List (LayoutType × Nat)) (k : LayoutType) :
    k ∈ (bumpCount acc k).map Prod.fst := by
  induction acc with
  | nil => simp [bumpCount]
  | cons p rest ih =>
      rcases p with ⟨k0, n⟩
      by_cases hk0 : k0 = k
      · simp [bumpCount, hk0]
      · simp [bumpCount, hk0, ih]

theorem foldl_bumpCount_keys_mono :
    ∀ (ls : List LayoutType) (acc : List (LayoutType × Nat)) (k : LayoutType),
      k ∈ acc.map Prod.fst → k ∈ (ls.foldl bumpCount acc).map Prod.fst := by
  intro ls
  induction ls with
  | nil => intro acc k hk; simpa using hk
  | cons x xs ih =>
      intro acc k hk
      exact ih (bumpCount acc x) k (bumpCount_keys_mono x acc k hk)

theorem layoutCounts_mem_keys_aux :
    ∀ (ls : List LayoutType) (acc : List (LayoutType × Nat)) (k : LayoutType),
      k ∈ ls → k ∈ (ls.foldl bumpCount acc).map Prod.fst := by
  intro ls
  induction ls with
  | nil => intro acc k hk; simp at hk
  | cons x xs ih =>
      intro acc k hk
      rcases List.mem_cons.1 hk with h | h
      · subst h
        simp only [List.foldl_cons]
        exact foldl_bumpCount_keys_mono xs _ k (bumpCount_key_self acc k)
      · simp only [List.foldl_cons]
        exact ih (bumpCount acc x) k h

theorem layoutCounts_const :
    ∀ (ls : List LayoutType) (t : LayoutType) (n : Nat), (∀ x ∈ ls, x = t) →
      ls.foldl bumpCount [(t, n)] = [(t, n + ls.length)] := by
  intro ls
  induction ls with
  | nil => intro t n h; simp
  | cons x xs ih =>
      intro t n h
      have hx : x = t := h x (by simp)
      subst hx
      have hxs := ih x (n + 1) (fun y hy => h y (by simp [hy]))
      rw [List.foldl_cons]
      have hb : bumpCount [(x, n)] x = [(x, n + 1)] := by simp [bumpCount]
      rw [hb, hxs]
      simp [Nat.add_assoc, Nat.add_comm 1 xs.length]

/--
C9 (confirmed): `_determine_overall_layout` on a nonempty per-page layout
list returns the common layout type when every page has the same one, and
returns `mixed` as soon as two distinct per-page types occur, regardless of
which type is most frequent.
-/
theorem overallLayout_uniform_or_mixed (ls : List LayoutType) (t : LayoutType)
    (hne : ls ≠ []) :
    ((∀ x ∈ ls, x = t) → determineOverallLayout ls = t) ∧
      (∀ x ∈ ls, ∀ y ∈ ls, x ≠ y → determineOverallLayout ls = LayoutType.MIXED) := by
  constructor
  · intro hall
    rcases ls with _ | ⟨x, xs⟩
    · exact absurd rfl hne
    have hx : x = t := hall x (by simp)
    subst hx
    have hcounts : layoutCounts (x :: xs) = [(x, 1 + xs.length)] := by
      have hb : bumpCount [] x = [(x, 1)] := by simp [bumpCount]
      simp only [layoutCounts, List.foldl_cons, hb]
      exact layoutCounts_const xs x 1 (fun y hy => hall y (by simp [hy]))
    simp [determineOverallLayout, hcounts, mostCommonLayout]
  · intro x hx y hy hxy
    have hkx : x ∈ (layoutCounts ls).map Prod.fst := layoutCounts_mem_keys_aux ls [] x hx
    have hky : y ∈ (layoutCounts ls).map Prod.fst := layoutCounts_mem_keys_aux ls [] y hy
    have hlen : (layoutCounts ls).length ≠ 1 := by
      intro h1
      rcases cs : layoutCounts ls with _ | ⟨p, rest⟩
      · rw [cs] at hkx; simp at hkx
      · rw [cs] at h1
        have : rest = [] := by simpa using h1
        subst this
        rw [cs] at hkx hky
        simp only [List.map_cons, List.map_nil, List.mem_singleton] at hkx hky
        exact hxy (hkx.trans hky.symm)
    have hemp : ls.isEmpty = false := by
      rcases ls with _ | _
      · exact absurd rfl hne
      · rfl
    simp [determineOverallLayout, hemp, hlen]

/--
C9 witness: on `[two_column, two_column]` the aggregate is `two_column`;
on `[two_column, single_column]` it is `mixed`.
-/
theorem overallLayout_witness :
    determineOverallLayout [LayoutType.TWO_COLUMN, LayoutType.TWO_COLUMN] =
        LayoutType.TWO_COLUMN ∧
      determineOverallLayout [LayoutType.TWO_COLUMN, LayoutType.SINGLE_COLUMN] =
        LayoutType.MIXED := by
  constructor
  · exact (overallLayout_uniform_or_mixed
      [LayoutType.TWO_COLUMN, LayoutType.TWO_COLUMN] LayoutType.TWO_COLUMN
      (by decide)).1 (by decide)
  · exact (overallLayout_uniform_or_mixed
      [LayoutType.TWO_COLUMN, LayoutType.SINGLE_COLUMN] LayoutType.TWO_COLUMN
      (by decide)).2 LayoutType.TWO_COLUMN (by decide) LayoutType.SINGLE_COLUMN
      (by decide) (by decide)

/-! ### C6: pre-order traversal reproduces the heading stream -/

/-- A heading block with the given title and level (page 1). -/
def mkHeading (t : String) (l : HeadingLevel) : Block :=
  { baseBlock with
    text := t, is_heading := true, heading_level := l }

theorem preorderL_append (a b : List Node) :
    preorderL (a ++ b) = preorderL a ++ preorderL b := by
  induction a with
  | nil => simp [preorderL]
  | cons n ns ih => simp [preorderL, ih]

theorem buildStep_preorder (s : BuildSt) (h : Block)
    (hb : h.heading_level ≠ HeadingLevel.BODY) :
    preorderL (flushSt (buildStep s h)) =
      preorderL (flushSt s) ++ [(h.text, h.heading_level.toValue, h.page)] := by
  rcases s with ⟨closed, cur⟩
  cases hl : h.heading_level with
  | BODY => exact absurd hl hb
  | H1 =>
      cases cur <;>
        simp [buildStep, hl, flushSt, closeH1, closeH2, preorderL, preorderN,
          preorderL_append, HeadingLevel.toValue]
  | H2 =>
      cases cur with
      | nothing =>
          simp [buildStep, hl, flushSt, closeH2, preorderL, preorderN,
            preorderL_append, HeadingLevel.toValue]
      | h1 o =>
          simp [buildStep, hl, flushSt, closeH1, closeH2, preorderL, preorderN,
            preorderL_append, HeadingLevel.toValue]
      | h2top o2 =>
          simp [buildStep, hl, flushSt, closeH2, preorderL, preorderN,
            preorderL_append, HeadingLevel.toValue]
  | H3 =>
      cases cur with
      | nothing =>
          simp [buildStep, hl, flushSt, preorderL, preorderN,
            preorderL_append, HeadingLevel.toValue]
      | h1 o =>
          rcases o with ⟨t, p, subs, o2⟩
          cases o2 with
          | none =>
              simp [buildStep, hl, flushSt, closeH1, closeH2, preorderL, preorderN,
                preorderL_append, HeadingLevel.toValue]
          | some o2 =>
              simp [buildStep, hl, flushSt, closeH1, closeH2, preorderL, preorderN,
                preorderL_append, HeadingLevel.toValue]
      | h2top o2 =>
          simp [buildStep, hl, flushSt, closeH2, preorderL, preorderN,
            preorderL_append, HeadingLevel.toValue]

theorem buildFold_preorder :
    ∀ (hs : List Block) (s : BuildSt),
      (∀ h ∈ hs, h.heading_level ≠ HeadingLevel.BODY) →
      preorderL (flushSt (hs.foldl buildStep s)) =
        preorderL (flushSt s) ++
          hs.map (fun h => (h.text, h.heading_level.toValue, h.page)) := by
  intro hs
  induction hs with
  | nil => intro s hb; simp
  | cons h rest ih =>
      intro s hb
      rw [List.foldl_cons, ih (buildStep s h) (fun a ha => hb a (by simp [ha])),
        buildStep_preorder s h (hb h (by simp))]
      simp

/--
C6 (confirmed): for every heading sequence (blocks whose level is H1, H2 or
H3), a depth-first pre-order traversal of the tree built by
`_build_document_structure` lists the headings, as `(title, level, page)`
triples, in exactly the original input order.
-/
theorem structurePreorder_roundTrip (hs : List Block)
    (hbody : ∀ h ∈ hs, h.heading_level ≠ HeadingLevel.BODY) :
    preorderL (buildDocumentStructure hs) =
      hs.map (fun h => (h.text, h.heading_level.toValue, h.page)) := by
  have := buildFold_preorder hs ⟨[], Cur.nothing⟩ hbody
  simpa [buildDocumentStructure, flushSt, preorderL] using this

/--
C6 witness: the stream `[H1 "Ch1", H2 "S1.1", H2 "S1.2"]` builds one tree
whose pre-order traversal is exactly the input stream.
-/
theorem structurePreorder_witness :
    preorderL (buildDocumentStructure
        [mkHeading "Ch1" HeadingLevel.H1, mkHeading "S1.1" HeadingLevel.H2,
          mkHeading "S1.2" HeadingLevel.H2]) =
      [("Ch1", 1, 1), ("S1.1", 2, 1), ("S1.2", 2, 1)] := by
  rw [structurePreorder_roundTrip _ (by decide)]
  decide

/-! ### Heading classifier: shared lemmas -/

theorem updateBlock_font_size (m : FS) (b : Block) :
    (updateBlock m b).font_size = b.font_size := by
  rw [updateBlock]; split <;> rfl

theorem updateBlock_font_weight (m : FS) (b : Block) :
    (updateBlock m b).font_weight = b.font_weight := by
  rw [updateBlock]; split <;> rfl

theorem mem_detectHeadings_iff {blocks : List Block} {m : FS}
    (hm : medianFontSize blocks = some m) (h : Block) :
    h ∈ detectHeadings blocks ↔
      ∃ b ∈ blocks, headingFlag m b = true ∧ updateBlock m b = h := by
  simp only [detectHeadings, hm, List.mem_filterMap]
  constructor
  · rintro ⟨b, hb, hsome⟩
    by_cases hf : headingFlag m b = true
    · rw [if_pos hf] at hsome
      exact ⟨b, hb, hf, Option.some.inj hsome⟩
    · rw [if_neg hf] at hsome
      cases hsome
  · rintro ⟨b, hb, hf, hupd⟩
    exact ⟨b, hb, by rw [if_pos hf, hupd]⟩

theorem sizeQuot_of_pos (m : FS) (b : Block) (hpos : fsLt (FS.finite 0) m = true) :
    sizeQuot m b = fsDiv b.font_size m := by
  simp [sizeQuot, hpos]

theorem headingFlag_iff (m : FS) (b : Block) (hpos : fsLt (FS.finite 0) m = true) :
    headingFlag m b = true ↔
      ((fsLe (FS.finite 1.2) (fsDiv b.font_size m) = true ∧
          fsLe (FS.finite 12) b.font_size = true) ∨
        (b.font_weight = "bold" ∧
          fsLe (FS.finite 1.1) (fsDiv b.font_size m) = true)) := by
  simp [headingFlag, sizeQuot_of_pos m b hpos, Bool.or_eq_true, Bool.and_eq_true,
    beq_iff_eq]

theorem updateBlock_flagged (m : FS) (b : Block) (hf : headingFlag m b = true) :
    (updateBlock m b).is_heading = true ∧
      (updateBlock m b).heading_level = levelFor (sizeQuot m b) := by
  rw [updateBlock, if_pos hf]
  exact ⟨rfl, rfl⟩

/-! ### C7: the heading rule and the level rule -/

/--
C7 (confirmed): when `_detect_headings` computes a positive median `m`,
a block is flagged as a heading exactly when
`(font_size/m ≥ 1.2 and font_size ≥ 12) or (bold and font_size/m ≥ 1.1)`,
and every flagged block's level comes solely from the ratio:
`≥ 1.5` gives H1, `≥ 1.3` gives H2, anything else H3 — also for blocks that
qualified only through the boldness path.
-/
theorem headingClassifier_rule (blocks : List Block) (m : FS)
    (hm : medianFontSize blocks = some m) (hpos : fsLt (FS.finite 0) m = true) :
    (∀ h ∈ detectHeadings blocks,
        (((fsLe (FS.finite 1.2) (fsDiv h.font_size m) = true ∧
            fsLe (FS.finite 12) h.font_size = true) ∨
          (h.font_weight = "bold" ∧
            fsLe (FS.finite 1.1) (fsDiv h.font_size m) = true)) ∧
        h.is_heading = true ∧
        h.heading_level =
          (if fsLe (FS.finite 1.5) (fsDiv h.font_size m) then HeadingLevel.H1
           else if fsLe (FS.finite 1.3) (fsDiv h.font_size m) then HeadingLevel.H2
           else HeadingLevel.H3))) ∧
      (∀ b ∈ blocks,
        ((fsLe (FS.finite 1.2) (fsDiv b.font_size m) = true ∧
            fsLe (FS.finite 12) b.font_size = true) ∨
          (b.font_weight = "bold" ∧
            fsLe (FS.finite 1.1) (fsDiv b.font_size m) = true)) →
        updateBlock m b ∈ detectHeadings blocks) := by
  constructor
  · intro h hmem
    rcases (mem_detectHeadings_iff hm h).1 hmem with ⟨b, hb, hf, hupd⟩
    have hfs : h.font_size = b.font_size := by rw [← hupd, updateBlock_font_size]
    have hfw : h.font_weight = b.font_weight := by rw [← hupd, updateBlock_font_weight]
    have hflags := updateBlock_flagged m b hf
    refine ⟨?_, ?_, ?_⟩
    · rw [hfs, hfw]
      exact (headingFlag_iff m b hpos).1 hf
    · rw [← hupd]; exact hflags.1
    · have hlev : h.heading_level = levelFor (sizeQuot m b) := by
        rw [← hupd]; exact hflags.2
      rw [hlev, levelFor, sizeQuot_of_pos m b hpos, hfs]
  · intro b hb hcrit
    exact (mem_detectHeadings_iff hm (updateBlock m b)).2
      ⟨b, hb, (headingFlag_iff m b hpos).2 hcrit, rfl⟩

/-- An 18-point block over a 12-point median (ratio 1.5). -/
def bigBlock : Block := { baseBlock with font_size := FS.finite 18 }

/-- Blocks for the C7 witness: median 12, one 18-point block. -/
def c7Blocks : List Block := [baseBlock, baseBlock, bigBlock]

/--
C7 witness: in `[12, 12, 18]` the median is 12 and the 18-point block
(ratio 1.5 ≥ 1.2, size 18 ≥ 12) is in the headings output.
-/
theorem headingClassifier_rule_witness :
    updateBlock (FS.finite 12) bigBlock ∈ detectHeadings c7Blocks := by
  refine (headingClassifier_rule c7Blocks (FS.finite 12) (by decide) (by decide)).2
    bigBlock (by decide) (Or.inl ⟨?_, by decide⟩)
  norm_num [bigBlock, baseBlock, fsDiv, fsLe]

/-! ### C2: a 15-point block over a 12-point median -/

/-- A 15-point block. -/
def b15 : Block := { baseBlock with font_size := FS.finite 15 }

/-- Blocks whose median font size is 12 with one 15-point block. -/
def c2Blocks : List Block := [baseBlock, baseBlock, b15]

/--
C2 (corrected): for a block set whose computed median font size is 12, a
block with `font_size` 15 (ratio 1.25) is flagged as a heading, but its
level is H3, not H2: the level rule gives H2 only from ratio ≥ 1.3, and
1.25 < 1.3.
-/
theorem heading15_at_median12_H3 (blocks : List Block) (b : Block)
    (hm : medianFontSize blocks = some (FS.finite 12)) (hb : b ∈ blocks)
    (hf : b.font_size = FS.finite 15) :
    (updateBlock (FS.finite 12) b).is_heading = true ∧
      (updateBlock (FS.finite 12) b).heading_level = HeadingLevel.H3 ∧
      updateBlock (FS.finite 12) b ∈ detectHeadings blocks := by
  have hpos : fsLt (FS.finite 0) (FS.finite 12) = true := by decide
  have hflag : headingFlag (FS.finite 12) b = true := by
    apply (headingFlag_iff (FS.finite 12) b hpos).2
    refine Or.inl ⟨?_, ?_⟩
    · rw [hf]; norm_num [fsDiv, fsLe]
    · rw [hf]; decide
  have hflags := updateBlock_flagged (FS.finite 12) b hflag
  refine ⟨hflags.1, ?_, (mem_detectHeadings_iff hm (updateBlock (FS.finite 12) b)).2
    ⟨b, hb, hflag, rfl⟩⟩
  rw [hflags.2, sizeQuot_of_pos _ b hpos, hf, levelFor]
  norm_num [fsDiv, fsLe]

/--
C2 counterexample: on `[12, 12, 15]` the median is 12 and the single
detected heading is the 15-point block at level H3 — not H2 as claimed.
-/
theorem heading15_level_is_H3_not_H2 :
    (detectHeadings c2Blocks).map (fun b => (b.font_size, b.is_heading, b.heading_level)) =
        [(FS.finite 15, true, HeadingLevel.H3)] ∧
      HeadingLevel.H3 ≠ HeadingLevel.H2 := by
  constructor
  · norm_num [detectHeadings, medianFontSize, fontSizes, fsSort, fsInsert, fsLt, fsLe,
      fsDiv, headingFlag, sizeQuot, updateBlock, levelFor, List.filterMap, c2Blocks,
      b15, baseBlock]
  · decide

/--
C2 witness: on the concrete block set `[12, 12, 15]` the amended claim's
hypotheses hold and the 15-point block is a heading at level H3.
-/
theorem heading15_at_median12_H3_witness :
    (updateBlock (FS.finite 12) b15).is_heading = true ∧
      (updateBlock (FS.finite 12) b15).heading_level = HeadingLevel.H3 ∧
      updateBlock (FS.finite 12) b15 ∈ detectHeadings c2Blocks :=
  heading15_at_median12_H3 c2Blocks b15 (by decide) (by decide) (by decide)

/-! ### C3: a bold 13-point block over a 12-point median -/

/-- A bold 13-point block (ratio 13/12 ≈ 1.083 over a median of 12). -/
def b13bold : Block :=
  { baseBlock with
    font_size := FS.finite 13, font_name := "Arial-Bold", font_weight := "bold" }

/-- A bold 14-point block (ratio 7/6 ≈ 1.167 over a median of 12). -/
def b14bold : Block :=
  { baseBlock with
    font_size := FS.finite 14, font_name := "Arial-Bold", font_weight := "bold" }

/-- Blocks whose median font size is 12 with one bold 13-point block. -/
def c3Blocks : List Block := [baseBlock, baseBlock, b13bold]

/-- Blocks whose median font size is 12 with one bold 14-point block. -/
def c3wBlocks : List Block := [baseBlock, baseBlock, b14bold]

/--
C3 (corrected): the boldness path requires ratio ≥ 1.1, which a bold
13-point block over a 12-point median (ratio ≈ 1.083) fails, so it is not a
heading at all.  A bold block that does clear the boldness threshold while
staying under the size-path threshold — e.g. 14 points over a 12-point
median (ratio ≈ 1.167, below 1.2) — is flagged via the boldness path and
lands at level H3.
-/
theorem bold14_at_median12_H3 (blocks : List Block) (b : Block)
    (hm : medianFontSize blocks = some (FS.finite 12)) (hb : b ∈ blocks)
    (hf : b.font_size = FS.finite 14) (hw : b.font_weight = "bold") :
    fsLe (FS.finite 1.2) (fsDiv b.font_size (FS.finite 12)) = false ∧
      (updateBlock (FS.finite 12) b).is_heading = true ∧
      (updateBlock (FS.finite 12) b).heading_level = HeadingLevel.H3 ∧
      updateBlock (FS.finite 12) b ∈ detectHeadings blocks := by
  have hpos : fsLt (FS.finite 0) (FS.finite 12) = true := by decide
  have hsize : fsLe (FS.finite 1.2) (fsDiv b.font_size (FS.finite 12)) = false := by
    rw [hf]; norm_num [fsDiv, fsLe]
  have hflag : headingFlag (FS.finite 12) b = true := by
    apply (headingFlag_iff (FS.finite 12) b hpos).2
    refine Or.inr ⟨hw, ?_⟩
    rw [hf]; norm_num [fsDiv, fsLe]
  have hflags := updateBlock_flagged (FS.finite 12) b hflag
  refine ⟨hsize, hflags.1, ?_, (mem_detectHeadings_iff hm _).2 ⟨b, hb, hflag, rfl⟩⟩
  rw [hflags.2, sizeQuot_of_pos _ b hpos, hf, levelFor]
  norm_num [fsDiv, fsLe]

/--
C3 counterexample: on `[12, 12, bold 13]` the median is 12 and
`_detect_headings` returns no headings: the bold 13-point block
(ratio ≈ 1.083 < 1.1) does not qualify through the boldness path.
-/
theorem bold13_at_median12_not_heading :
    detectHeadings c3Blocks = [] ∧ b13bold ∈ c3Blocks := by
  constructor
  · norm_num [detectHeadings, medianFontSize, fontSizes, fsSort, fsInsert, fsLt, fsLe,
      fsDiv, headingFlag, sizeQuot, updateBlock, levelFor, List.filterMap, c3Blocks,
      b13bold, baseBlock]
  · decide

/--
C3 witness: on the concrete block set `[12, 12, bold 14]` the amended
claim's hypotheses hold: the bold block fails the size path but is flagged
via the boldness path at level H3.
-/
theorem bold14_at_median12_H3_witness :
    fsLe (FS.finite 1.2) (fsDiv b14bold.font_size (FS.finite 12)) = false ∧
      (updateBlock (FS.finite 12) b14bold).is_heading = true ∧
      (updateBlock (FS.finite 12) b14bold).heading_level = HeadingLevel.H3 ∧
      updateBlock (FS.finite 12) b14bold ∈ detectHeadings c3wBlocks :=
  bold14_at_median12_H3 c3wBlocks b14bold (by decide) (by decide) (by decide) (by decide)

/-! ### C5: negative and non-finite font sizes -/

/-- Negative, NaN, or `-inf` font sizes: the sizes the code really keeps
out of the median and out of the headings (`+inf` is the exception: it
passes the `> 0` filter). -/
def isBadSize : FS → Bool
  | .finite q => q < 0
  | .inf => false
  | .ninf => true
  | .nan => true

theorem badSize_not_pos (v : FS) (h : isBadSize v = true) :
    fsLt (FS.finite 0) v = false := by
  cases v with
  | finite q =>
      simp only [isBadSize, decide_eq_true_eq] at h
      simp only [fsLt, decide_eq_false_iff_not]
      linarith
  | inf => simp [isBadSize] at h
  | ninf => rfl
  | nan => rfl

theorem badSize_not_heading (m : FS) (b : Block) (hbad : isBadSize b.font_size = true) :
    headingFlag m b = false := by
  have hB : fsLe (FS.finite 12) b.font_size = false := by
    cases hfs : b.font_size with
    | finite p =>
        rw [hfs] at hbad
        simp only [isBadSize, decide_eq_true_eq] at hbad
        simp only [fsLe, decide_eq_false_iff_not]
        linarith
    | inf => rw [hfs] at hbad; simp [isBadSize] at hbad
    | ninf => rfl
    | nan => rfl
  have hD : fsLe (FS.finite 1.1) (sizeQuot m b) = false := by
    by_cases hpos : fsLt (FS.finite 0) m = true
    · rw [sizeQuot_of_pos m b hpos]
      cases hfs : b.font_size with
      | finite p =>
          rw [hfs] at hbad
          simp only [isBadSize, decide_eq_true_eq] at hbad
          cases m with
          | finite q =>
              have hq : (0 : ℚ) < q := by simpa [fsLt] using hpos
              have hq0 : ¬ q = 0 := by linarith
              have hneg : p / q < 0 := div_neg_of_neg_of_pos hbad hq
              simp only [fsDiv, if_neg hq0, fsLe, decide_eq_false_iff_not]
              norm_num
              linarith
          | inf => norm_num [fsDiv, fsLe]
          | ninf => simp [fsLt] at hpos
          | nan => simp [fsLt] at hpos
      | inf => rw [hfs] at hbad; simp [isBadSize] at hbad
      | ninf =>
          cases m with
          | finite q =>
              have hq : (0 : ℚ) < q := by simpa [fsLt] using hpos
              have hq' : ¬ q < 0 := by linarith
              simp [fsDiv, hq', fsLe]
          | inf => simp [fsDiv, fsLe]
          | ninf => simp [fsLt] at hpos
          | nan => simp [fsLt] at hpos
      | nan => simp [fsDiv, fsLe]
    · rw [Bool.not_eq_true] at hpos
      rw [sizeQuot, hpos]
      norm_num [fsLe]
  simp [headingFlag, hB, hD]

/--
C5 (corrected): a block whose `font_size` is negative, NaN, or `-inf` fails
the `> 0` filter, so it enters neither the median size list nor the heading
set: it stays in the (classified) block list completely untouched, i.e. as
Body.  The claim's "non-finite" is too broad, however: `+inf` passes the
`> 0` filter, so it does enter the median computation and can itself be
flagged as a heading (see the counterexample).
-/
theorem badSize_kept_as_body (blocks : List Block) (b : Block)
    (hb : b ∈ blocks) (hbad : isBadSize b.font_size = true) :
    b.font_size ∉ fontSizes blocks ∧
      (∀ m, updateBlock m b = b) ∧
      b ∈ classifiedBlocks blocks ∧
      ∀ h ∈ detectHeadings blocks, isBadSize h.font_size = false := by
  have hupd : ∀ m, updateBlock m b = b := by
    intro m
    rw [updateBlock, if_neg]
    rw [badSize_not_heading m b hbad]
    simp
  refine ⟨?_, hupd, ?_, ?_⟩
  · intro hmem
    rcases List.mem_map.1 hmem with ⟨a, ha, hfs⟩
    have hpos := List.of_mem_filter ha
    rw [hfs] at hpos
    rw [badSize_not_pos b.font_size hbad] at hpos
    cases hpos
  · rw [classifiedBlocks]
    cases hm : medianFontSize blocks with
    | none => exact hb
    | some m => exact List.mem_map.2 ⟨b, hb, hupd m⟩
  · intro h hmem
    cases hm : medianFontSize blocks with
    | none =>
        rw [detectHeadings, hm] at hmem
        cases hmem
    | some m =>
        rcases (mem_detectHeadings_iff hm h).1 hmem with ⟨a, ha, hflag, hupda⟩
        have hfs : h.font_size = a.font_size := by
          rw [← hupda, updateBlock_font_size]
        cases hx : isBadSize h.font_size with
        | false => rfl
        | true =>
            rw [hfs] at hx
            rw [badSize_not_heading m a hx] at hflag
            cases hflag

/-- A block with font size `+inf`. -/
def infBlock : Block := { baseBlock with font_size := FS.inf }

/-- A block with font size NaN. -/
def nanBlock : Block := { baseBlock with font_size := FS.nan }

/-- Blocks `[12, 12, +inf]`. -/
def c5Blocks : List Block := [baseBlock, baseBlock, infBlock]

/-- Blocks `[12, 12, NaN]`. -/
def c5wBlocks : List Block := [baseBlock, baseBlock, nanBlock]

/--
C5 counterexample: a block with the non-finite font size `+inf` passes the
`> 0` filter, so on `[12, 12, +inf]` it is part of the median size list and
— the median being 12 — is itself flagged as an H1 heading, contradicting
both "excluded from the median computation" and "never flagged as a
heading".
-/
theorem infinite_size_becomes_heading :
    FS.inf ∈ fontSizes c5Blocks ∧
      (detectHeadings c5Blocks).map (fun b => (b.font_size, b.is_heading, b.heading_level)) =
        [(FS.inf, true, HeadingLevel.H1)] := by
  constructor
  · decide
  · norm_num [detectHeadings, medianFontSize, fontSizes, fsSort, fsInsert, fsLt, fsLe,
      fsDiv, headingFlag, sizeQuot, updateBlock, levelFor, List.filterMap, c5Blocks,
      infBlock, baseBlock]

/--
C5 witness: on `[12, 12, NaN]` the NaN block is outside the median size
list, untouched by classification, kept in the classified block list, and
no heading has a bad size.
-/
theorem badSize_kept_as_body_witness :
    FS.nan ∉ fontSizes c5wBlocks ∧
      updateBlock (FS.finite 12) nanBlock = nanBlock ∧
      nanBlock ∈ classifiedBlocks c5wBlocks := by
  have h := badSize_kept_as_body c5wBlocks nanBlock (by decide) (by decide)
  exact ⟨h.1, h.2.1 (FS.finite 12), h.2.2.1⟩

/-! ### C8 and C10: column band invariants -/

theorem clusterAux_flatten (t : ℚ) :
    ∀ (cs cur : List ℚ), (clusterAux t cur cs).flatten = cur ++ cs := by
  intro cs
  induction cs with
  | nil => intro cur; simp [clusterAux]
  | cons c rest ih =>
      intro cur
      simp only [clusterAux]
      split
      · rw [ih (cur ++ [c])]; simp
      · simp only [List.flatten_cons, ih [c]]; simp

theorem clusterAux_ne_nil (t : ℚ) :
    ∀ (cs cur : List ℚ), cur ≠ [] → ∀ cl ∈ clusterAux t cur cs, cl ≠ [] := by
  intro cs
  induction cs with
  | nil =>
      intro cur hcur cl hcl
      simp only [clusterAux, List.mem_singleton] at hcl
      exact hcl ▸ hcur
  | cons c rest ih =>
      intro cur hcur cl hcl
      simp only [clusterAux] at hcl
      split at hcl
      · exact ih (cur ++ [c]) (by simp) cl hcl
      · rcases List.mem_cons.1 hcl with h | h
        · exact h ▸ hcur
        · exact ih [c] (by simp) cl h

theorem foldl_min_mem : ∀ (xs : List ℚ) (a : ℚ), xs.foldl min a ∈ a :: xs := by
  intro xs
  induction xs with
  | nil => intro a; simp
  | cons x xs ih =>
      intro a
      rcases min_choice a x with h | h <;>
      · have := ih (min a x)
        rw [h] at this
        simp only [List.foldl_cons]
        rcases List.mem_cons.1 this with h1 | h1 <;> simp [h, h1]

theorem minQ_mem (l : List ℚ) (h : l ≠ []) : minQ l ∈ l := by
  cases l with
  | nil => exact absurd rfl h
  | cons x xs => exact foldl_min_mem xs x

/-- Every value of one cluster is at most every value of a later cluster. -/
def clusterLeQ (c1 c2 : List ℚ) : Prop := ∀ x ∈ c1, ∀ y ∈ c2, x ≤ y

theorem buildColumns_width :
    ∀ (cs : List (List ℚ)) (pw : ℚ) (b : ℚ × ℚ),
      b ∈ buildColumns pw cs → 100 ≤ b.2 - b.1 := by
  intro cs
  induction cs with
  | nil => intro pw b hb; simp [buildColumns] at hb
  | cons c cs ih =>
      intro pw b hb
      cases cs with
      | nil =>
          simp only [buildColumns] at hb
          split at hb
          · simp only [List.mem_singleton] at hb
            subst hb
            simpa using ‹pw - minQ c ≥ 100›
          · simp at hb
      | cons c2 rest =>
          simp only [buildColumns, List.mem_append] at hb
          rcases hb with hb | hb
          · split at hb
            · simp only [List.mem_singleton] at hb
              subst hb
              simpa using ‹minQ c2 - 30 / 2 - minQ c ≥ 100›
            · simp at hb
          · exact ih pw b hb

theorem buildColumns_left_eq_minQ :
    ∀ (cs : List (List ℚ)) (pw : ℚ) (b : ℚ × ℚ),
      b ∈ buildColumns pw cs → ∃ c ∈ cs, b.1 = minQ c := by
  intro cs
  induction cs with
  | nil => intro pw b hb; simp [buildColumns] at hb
  | cons c cs ih =>
      intro pw b hb
      cases cs with
      | nil =>
          simp only [buildColumns] at hb
          split at hb
          · simp only [List.mem_singleton] at hb
            exact ⟨c, by simp, by rw [hb]⟩
          · simp at hb
      | cons c2 rest =>
          simp only [buildColumns, List.mem_append] at hb
          rcases hb with hb | hb
          · split at hb
            · simp only [List.mem_singleton] at hb
              exact ⟨c, by simp, by rw [hb]⟩
            · simp at hb
          · rcases ih pw b hb with ⟨c3, hc3, hleft⟩
            exact ⟨c3, by simp [hc3], hleft⟩

theorem buildColumns_disjoint :
    ∀ (cs : List (List ℚ)) (pw : ℚ), (∀ cl ∈ cs, cl ≠ []) →
      List.Pairwise clusterLeQ cs →
      List.Pairwise (fun b1 b2 => b1.2 < b2.1) (buildColumns pw cs) := by
  intro cs
  induction cs with
  | nil => intro pw _ _; simp [buildColumns]
  | cons c cs ih =>
      intro pw hne hpw
      cases cs with
      | nil =>
          simp only [buildColumns]
          split
          · exact List.pairwise_singleton _ _
          · exact List.Pairwise.nil
      | cons c2 rest =>
          simp only [buildColumns]
          rw [List.pairwise_append]
          refine ⟨?_, ih pw (fun cl hcl => hne cl (by simp [List.mem_cons.1 hcl])) hpw.tail, ?_⟩
          · split
            · exact List.pairwise_singleton _ _
            · exact List.Pairwise.nil
          · intro a ha b hb
            have hb1 : ∃ c3 ∈ c2 :: rest, b.1 = minQ c3 := buildColumns_left_eq_minQ _ pw b hb
            rcases hb1 with ⟨c3, hc3, hbl⟩
            have ha2 : a.2 = minQ c2 - 30 / 2 := by
              split at ha
              · simp only [List.mem_singleton] at ha; rw [ha]
              · simp at ha
            rw [ha2, hbl]
            rcases List.mem_cons.1 hc3 with h3 | h3
            · subst h3; norm_num
            · have hrel : clusterLeQ c2 c3 := List.rel_of_pairwise_cons hpw.tail h3
              have h2m : minQ c2 ∈ c2 := minQ_mem c2 (hne c2 (by simp))
              have h3m : minQ c3 ∈ c3 := minQ_mem c3 (hne c3 (by simp [h3]))
              have := hrel (minQ c2) h2m (minQ c3) h3m
              linarith

theorem clustersOf_flatten (blocks : List Block) :
    (clustersOf blocks).flatten = sortedXCoords blocks := by
  rw [clustersOf]
  cases hx : sortedXCoords blocks with
  | nil => simp [clusterCoordinates]
  | cons c cs => simp [clusterCoordinates, clusterAux_flatten]

theorem clustersOf_ne_nil (blocks : List Block) :
    ∀ cl ∈ clustersOf blocks, cl ≠ [] := by
  rw [clustersOf]
  cases hx : sortedXCoords blocks with
  | nil => simp [clusterCoordinates]
  | cons c cs =>
      simp only [clusterCoordinates]
      exact fun cl hcl => clusterAux_ne_nil 30 cs [c] (by simp) cl hcl

theorem clustersOf_crossLe (blocks : List Block) :
    List.Pairwise clusterLeQ (clustersOf blocks) := by
  have hsorted : List.Pairwise (· ≤ ·) (clustersOf blocks).flatten := by
    rw [clustersOf_flatten]
    exact List.sorted_insertionSort (· ≤ ·) (blocks.map Block.x0)
  exact (List.pairwise_flatten.1 hsorted).2

/--
C8 (confirmed): whenever `_detect_columns` returns bands (a non-`None`
list), every band has `x_left < x_right`, the bands are pairwise disjoint
(each band ends strictly before the next begins), and they are sorted
strictly ascending by `x_left`; and whenever the returned layout type is
`single_column`, the bands are `None`.
-/
theorem columnBands_invariants (blocks : List Block) (pw : ℚ)
    (lt : LayoutType) (obands : Option (List (ℚ × ℚ)))
    (h : detectColumns blocks pw = (lt, obands)) :
    (∀ bands, obands = some bands →
      (∀ b ∈ bands, b.1 < b.2) ∧
        List.Pairwise (fun b1 b2 => b1.2 < b2.1) bands ∧
        List.Pairwise (fun b1 b2 => b1.1 < b2.1) bands) ∧
      (lt = LayoutType.SINGLE_COLUMN → obands = none) := by
  simp only [detectColumns] at h
  split at h
  · rw [Prod.mk.injEq] at h
    exact ⟨fun bands hb => (by rw [← h.2] at hb; cases hb), fun _ => h.2.symm⟩
  · split at h
    · rw [Prod.mk.injEq] at h
      exact ⟨fun bands hb => (by rw [← h.2] at hb; cases hb), fun _ => h.2.symm⟩
    · rw [Prod.mk.injEq] at h
      obtain ⟨hlt, hob⟩ := h
      constructor
      · intro bands hb
        rw [← hob] at hb
        have hcols : bands = buildColumns pw (clustersOf blocks) := by
          split at hb
          · exact (Option.some.inj hb).symm
          · cases hb
        subst hcols
        have hwidth : ∀ b ∈ buildColumns pw (clustersOf blocks), 100 ≤ b.2 - b.1 :=
          fun b hb => buildColumns_width (clustersOf blocks) pw b hb
        have hdisj : List.Pairwise (fun b1 b2 => b1.2 < b2.1)
            (buildColumns pw (clustersOf blocks)) :=
          buildColumns_disjoint (clustersOf blocks) pw (clustersOf_ne_nil blocks)
            (clustersOf_crossLe blocks)
        refine ⟨fun b hb => by have := hwidth b hb; linarith, hdisj, ?_⟩
        exact hdisj.imp_of_mem (fun ha hb hr => by
          have := hwidth _ ha; linarith)
      · intro hsingle
        rw [← hlt] at hsingle
        rw [← hob]
        split at hsingle
        · rename_i h1
          rw [h1]
          simp
        · split at hsingle
          · simp at hsingle
          · split at hsingle
            · simp at hsingle
            · simp at hsingle

/-- The left block of the two-column witness page (left edge 0). -/
def colBlockL : Block := baseBlock

/-- The right block of the two-column witness page (left edge 400). -/
def colBlockR : Block := { baseBlock with x0 := 400 }

/-- A page whose two blocks start at x = 0 and x = 400. -/
def c8Blocks : List Block := [colBlockL, colBlockR]

/-- A page whose two blocks start at x = 0 and x = 50 (two clusters, but on
a width-100 page every candidate band is narrower than 100). -/
def c10Blocks : List Block := [colBlockL, { baseBlock with x0 := 50 }]

theorem c8_detect_eval :
    detectColumns c8Blocks 800 =
      (LayoutType.TWO_COLUMN, some [((0 : ℚ), (385 : ℚ)), ((400 : ℚ), (800 : ℚ))]) := by
  norm_num [detectColumns, clustersOf, sortedXCoords, clusterCoordinates, clusterAux,
    buildColumns, minQ, List.insertionSort, List.orderedInsert, c8Blocks, colBlockL,
    colBlockR, baseBlock]

/--
C8 witness: on a page with blocks at x = 0 and x = 400 and width 800, the
detector returns bands `[(0, 385), (400, 800)]`, which satisfy all three
band invariants.
-/
theorem columnBands_invariants_witness :
    (∀ b ∈ [((0 : ℚ), (385 : ℚ)), ((400 : ℚ), (800 : ℚ))], b.1 < b.2) ∧
      List.Pairwise (fun b1 b2 => b1.2 < b2.1)
        [((0 : ℚ), (385 : ℚ)), ((400 : ℚ), (800 : ℚ))] ∧
      List.Pairwise (fun b1 b2 => b1.1 < b2.1)
        [((0 : ℚ), (385 : ℚ)), ((400 : ℚ), (800 : ℚ))] :=
  (columnBands_invariants c8Blocks 800 LayoutType.TWO_COLUMN
    (some [((0 : ℚ), (385 : ℚ)), ((400 : ℚ), (800 : ℚ))]) c8_detect_eval).1
    [((0 : ℚ), (385 : ℚ)), ((400 : ℚ), (800 : ℚ))] rfl

/--
C10 (confirmed): when the detector finds two or more x-coordinate clusters
but the minimum-column-width filter discards every candidate band, the page
is reported as `(mixed, None)` — not as single-column.
-/
theorem zeroBands_reported_mixed (blocks : List Block) (pw : ℚ)
    (h2 : 2 ≤ (clustersOf blocks).length)
    (h0 : buildColumns pw (clustersOf blocks) = []) :
    detectColumns blocks pw = (LayoutType.MIXED, none) := by
  have hne : blocks.isEmpty = false := by
    cases hb : blocks with
    | nil =>
        rw [hb] at h2
        simp [clustersOf, sortedXCoords, clusterCoordinates] at h2
    | cons x xs => rfl
  have hgt : ¬ (clustersOf blocks).length ≤ 1 := by omega
  simp [detectColumns, hne, hgt, h0]

/--
C10 witness: blocks at x = 0 and x = 50 on a width-100 page give two
clusters whose candidate bands (width 35 and 50) are both dropped, and the
detector reports `(mixed, None)`.
-/
theorem zeroBands_reported_mixed_witness :
    detectColumns c10Blocks 100 = (LayoutType.MIXED, none) := by
  refine zeroBands_reported_mixed c10Blocks 100 ?_ ?_
  · norm_num [clustersOf, sortedXCoords, clusterCoordinates, clusterAux,
      List.insertionSort, List.orderedInsert, c10Blocks, colBlockL, baseBlock]
  · norm_num [clustersOf, sortedXCoords, clusterCoordinates, clusterAux,
      buildColumns, minQ, List.insertionSort, List.orderedInsert, c10Blocks,
      colBlockL, baseBlock]

end Ultudy
